import Mathlib

set_option maxRecDepth 16000

/-!
Verification development for the open-world streaming / terrain repository.

Shallow embedding conventions:
* JavaScript doubles are idealised as exact arithmetic (`ℚ` where the
  computation is rational and needs to be executable, `ℝ` where irrational
  constants such as `√3`, `π` or the exponent `1.6` appear).
* Stateful classes become explicit state records with pure step functions.
* The samplers receive their collaborators (the noise instance and the
  terrain generator) as function parameters, mirroring the dependency
  injection in the source (`this._noise`, `this._terrain`).
-/

/-! ### Constants (src/utils/constants.js) -/

def CHUNK_SIZE : ℚ := 64

/-! ### WorldManager (src/world/worldManager.js)

State of a `WorldManager` instance: `activeChunks` is the key set of the
`Map` in insertion order (values are the rendered objects, irrelevant to the
streaming logic), `lastChunk` holds `_lastChunkX/_lastChunkZ` (both `null`
initially), and the two FIFO queues hold chunk keys. -/

structure WMState where
  activeChunks : List (ℤ × ℤ)
  lastChunk : Option (ℤ × ℤ)
  renderDistance : ℤ
  loadQueue : List (ℤ × ℤ)
  unloadQueue : List (ℤ × ℤ)
deriving Repr, DecidableEq

/-- Fresh `WorldManager` (constructor): no active chunks, `_lastChunkX/Z`
null, `_renderDistance = 2`, empty queues. -/
def WMState.init : WMState :=
  { activeChunks := [], lastChunk := none, renderDistance := 2,
    loadQueue := [], unloadQueue := [] }

/-- `setRenderDistance(dist)`. -/
def WMState.setRenderDistance (st : WMState) (d : ℤ) : WMState :=
  { st with renderDistance := d }

/-- Integer interval `[a, b]` as a list, in increasing order. -/
def rangeInt (a b : ℤ) : List ℤ :=
  (List.range (b + 1 - a).toNat).map (fun k => a + (k : ℤ))

/-- The double loop `dx = -renderDistance .. renderDistance`,
`dz = -renderDistance .. renderDistance` building `neededKeys`
(in push order, which is also the load-queue push order). -/
def wmNeeded (r : ℤ) (c : ℤ × ℤ) : List (ℤ × ℤ) :=
  (rangeInt (-r) r).flatMap (fun dx =>
    (rangeInt (-r) r).map (fun dz => (c.1 + dx, c.2 + dz)))

/-- `⌊q / 64⌋`, computed on the numerator and denominator so that it
reduces inside the kernel; `jsFloorDivChunk_eq` states that it is the
mathematical floor of `q / CHUNK_SIZE`. -/
def jsFloorDivChunk (q : ℚ) : ℤ :=
  Int.fdiv q.num (q.den * 64)

theorem jsFloorDivChunk_eq (q : ℚ) : jsFloorDivChunk q = ⌊q / CHUNK_SIZE⌋ := by
  have hq : q / CHUNK_SIZE = (q.num : ℚ) / ((q.den * 64 : ℕ) : ℚ) := by
    rw [CHUNK_SIZE]
    conv_lhs => rw [← Rat.num_div_den q]
    push_cast
    rw [div_div]
  rw [jsFloorDivChunk, hq, Rat.floor_intCast_div_natCast,
    Int.fdiv_eq_ediv _ (by positivity)]
  push_cast
  ring_nf

/-- `Math.floor(playerPosition.x / CHUNK_SIZE)` for both axes. -/
def playerChunk (px pz : ℚ) : ℤ × ℤ :=
  (jsFloorDivChunk px, jsFloorDivChunk pz)

/-- The boundary-crossing block of `update`: when the player's chunk has
changed, recompute `neededKeys`, append the not-yet-active needed chunks to
the load queue, and append the active chunks that are no longer needed to
the unload queue. -/
def wmRescan (st : WMState) (c : ℤ × ℤ) : WMState :=
  if st.lastChunk = some c then st
  else
    let needed := wmNeeded st.renderDistance c
    { st with
      lastChunk := some c
      loadQueue := st.loadQueue ++
        needed.filter (fun k => !(decide (k ∈ st.activeChunks)))
      unloadQueue := st.unloadQueue ++
        st.activeChunks.filter (fun k => !(decide (k ∈ needed))) }

/-- Pop at most one entry from the load queue and run `_loadChunk` on it:
`activeChunks.set(key, lod)` appends the key if absent (a `Map.set` on a
present key keeps its position).  Returns the chunks loaded this call. -/
def wmPopLoad (st : WMState) : WMState × List (ℤ × ℤ) :=
  match st.loadQueue with
  | [] => (st, [])
  | k :: rest =>
      ({ st with
          loadQueue := rest
          activeChunks :=
            if k ∈ st.activeChunks then st.activeChunks
            else st.activeChunks ++ [k] }, [k])

/-- Pop at most one entry from the unload queue and run `_unloadChunk` on
it: `activeChunks.delete(key)`.  Returns the chunks unloaded this call. -/
def wmPopUnload (st : WMState) : WMState × List (ℤ × ℤ) :=
  match st.unloadQueue with
  | [] => (st, [])
  | k :: rest =>
      ({ st with
          unloadQueue := rest
          activeChunks := st.activeChunks.eraseP (fun d => decide (d = k)) },
        [k])

/-- `WorldManager.update(playerPosition)`, instrumented: besides the next
state it returns the list of chunks actually loaded (calls to `_loadChunk`)
and unloaded (calls to `_unloadChunk`) during this call. -/
def wmUpdateFull (st : WMState) (px pz : ℚ) : WMState × List (ℤ × ℤ) × List (ℤ × ℤ) :=
  let st1 := wmRescan st (playerChunk px pz)
  let load := wmPopLoad st1
  let unload := wmPopUnload load.1
  (unload.1, load.2, unload.2)

/-- `WorldManager.update`, state part only. -/
def wmUpdate (st : WMState) (px pz : ℚ) : WMState :=
  (wmUpdateFull st px pz).1

/-- Feed a sequence of player positions to `update`, one call each. -/
def wmRun (st : WMState) (ps : List (ℚ × ℚ)) : WMState :=
  ps.foldl (fun s p => wmUpdate s p.1 p.2) st

/-- Chebyshev-distance-`r` neighborhood membership of a chunk coordinate. -/
def inNeighborhood (center c : ℤ × ℤ) (r : ℤ) : Prop :=
  |c.1 - center.1| ≤ r ∧ |c.2 - center.2| ≤ r

instance (center c : ℤ × ℤ) (r : ℤ) : Decidable (inNeighborhood center c r) := by
  unfold inNeighborhood; infer_instance

/-- The failing run for the settling invariant: one update with the player in
chunk `(0,0)`, then 17 updates with the player held fixed in chunk `(10,10)`
(world position `(640, 640)`), with `renderDistance = 1`. -/
def wmFailingRun : WMState :=
  wmRun (WMState.init.setRenderDistance 1)
    ((0, 0) :: List.replicate 17 ((640 : ℚ), (640 : ℚ)))

/-- **C1.** The spec's settling invariant fails on the code: after the run
`wmFailingRun` both queues are drained and the player's final chunk is
`(10,10)`, yet chunk `(-1,0)` — far outside the Chebyshev-`renderDistance`
neighborhood of `(10,10)` — is still active.  The cause: load-queue entries
that were queued for the old neighborhood of `(0,0)` are never pruned when
the player crosses into a new chunk; they are loaded on later ticks, and
since the unload scan only runs on a chunk crossing, they are never
unloaded. -/
theorem wm_settling_invariant_fails :
    wmFailingRun.loadQueue = [] ∧ wmFailingRun.unloadQueue = [] ∧
    playerChunk 640 640 = (10, 10) ∧
    (-1, 0) ∈ wmFailingRun.activeChunks ∧
    ¬ inNeighborhood (10, 10) (-1, 0) wmFailingRun.renderDistance := by
  set_option maxRecDepth 100000 in decide

/-- **C2.** Streaming throttle: a single `update` call loads at most one
chunk and unloads at most one chunk, regardless of the queue contents. -/
theorem wm_update_throttle (st : WMState) (px pz : ℚ) :
    (wmUpdateFull st px pz).2.1.length ≤ 1 ∧
    (wmUpdateFull st px pz).2.2.length ≤ 1 := by
  have hl : ∀ s : WMState, (wmPopLoad s).2.length ≤ 1 := by
    intro s
    unfold wmPopLoad
    cases s.loadQueue <;> simp
  have hu : ∀ s : WMState, (wmPopUnload s).2.length ≤ 1 := by
    intro s
    unfold wmPopUnload
    cases s.unloadQueue <;> simp
  unfold wmUpdateFull
  exact ⟨hl _, hu _⟩

/-! ### SimplexNoise (src/utils/noise.js)

Seed-derived permutation tables.  The constructor's Fisher–Yates shuffle is
driven by a Park–Miller style generator running on doubles; it is idealised
here as exact rational arithmetic.  Array accesses follow `Uint8Array`
semantics: an out-of-range read yields `undefined` (stored back as `0`), an
out-of-range write is ignored. -/

/-- JavaScript truncation toward zero (used by the `%` operator). -/
def jsTrunc (q : ℚ) : ℤ :=
  if 0 ≤ q then ⌊q⌋ else -⌊-q⌋

/-- The JavaScript `%` operator on numbers: `a - b * trunc(a / b)`. -/
def jsFmod (a b : ℚ) : ℚ :=
  a - b * (jsTrunc (a / b) : ℚ)

/-- Read `p[j]` with `Uint8Array` semantics (`undefined` coerces to 0 when
stored). -/
def tableRead (p : List ℕ) (j : ℤ) : ℕ :=
  if 0 ≤ j then p.getD j.toNat 0 else 0

/-- Write `p[j] = v`; out-of-range writes on a typed array are ignored. -/
def tableWrite (p : List ℕ) (j : ℤ) (v : ℕ) : List ℕ :=
  if 0 ≤ j then p.set j.toNat v else p

/-- The destructuring swap `[p[i], p[j]] = [p[j], p[i]]`. -/
def permSwap (p : List ℕ) (i : ℕ) (j : ℤ) : List ℕ :=
  let vi := p.getD i 0
  let vj := tableRead p j
  tableWrite (p.set i vj) j vi

/-- One iteration of the seeded Fisher–Yates loop in `SimplexNoise._seed`:
`s = (s * 16807 + 0.5) % 2147483647`, `j = floor((s / 2147483647) * (i + 1))`,
swap `p[i]` and `p[j]`. -/
def seedStep (sp : ℚ × List ℕ) (i : ℕ) : ℚ × List ℕ :=
  let s := jsFmod (sp.1 * 16807 + 0.5) 2147483647
  let j : ℤ := ⌊s / 2147483647 * ((i : ℚ) + 1)⌋
  (s, permSwap sp.2 i j)

/-- The shuffled base permutation `p` after the loop `i = 255 .. 1`. -/
def seededPerm (seed : ℚ) : List ℕ :=
  ((List.range' 1 255).reverse.foldl seedStep (seed, List.range 256)).2

/-- The two 512-entry lookup tables of a `SimplexNoise` instance:
`perm[i] = p[i & 255]` and `permMod12[i] = perm[i] % 12`. -/
structure SimplexTables where
  perm : List ℕ
  permMod12 : List ℕ

/-- `SimplexNoise` constructor (`this._seed(seed)`). -/
def mkSimplexTables (seed : ℚ) : SimplexTables :=
  let p := seededPerm seed
  { perm := (List.range 512).map (fun i => p.getD (i % 256) 0)
    permMod12 := (List.range 512).map (fun i => p.getD (i % 256) 0 % 12) }

/-- Skew factor `F2 = 0.5 * (Math.sqrt(3) - 1)`. -/
noncomputable def skewF2 : ℝ := 0.5 * (Real.sqrt 3 - 1)

/-- Unskew factor `G2 = (3 - Math.sqrt(3)) / 6`. -/
noncomputable def skewG2 : ℝ := (3 - Real.sqrt 3) / 6

/-- The 12 fixed gradient directions. -/
def grad3 : List (ℤ × ℤ × ℤ) :=
  [(1, 1, 0), (-1, 1, 0), (1, -1, 0), (-1, -1, 0),
   (1, 0, 1), (-1, 0, 1), (1, 0, -1), (-1, 0, -1),
   (0, 1, 1), (0, -1, 1), (0, 1, -1), (0, -1, -1)]

/-- One corner's contribution in `noise2D`: falloff `t0 = 0.5 - dx² - dy²`,
and if `t0 ≥ 0`, gradient index `permMod12[a + perm[b]]` and contribution
`t0⁴ · (g·d)`. -/
noncomputable def cornerContrib (t : SimplexTables) (a b : ℕ) (dx dy : ℝ) : ℝ :=
  let t0 : ℝ := 0.5 - dx * dx - dy * dy
  if 0 ≤ t0 then
    let gi := t.permMod12.getD (a + t.perm.getD b 0) 0
    let g := grad3.getD gi (0, 0, 0)
    t0 * t0 * (t0 * t0) * ((g.1 : ℝ) * dx + (g.2.1 : ℝ) * dy)
  else 0

/-- `SimplexNoise.noise2D(x, y)`. -/
noncomputable def noise2D (t : SimplexTables) (x y : ℝ) : ℝ :=
  let s := (x + y) * skewF2
  let i : ℤ := ⌊x + s⌋
  let j : ℤ := ⌊y + s⌋
  let tt : ℝ := ((i + j : ℤ) : ℝ) * skewG2
  let x0 := x - ((i : ℝ) - tt)
  let y0 := y - ((j : ℝ) - tt)
  let i1 : ℕ := if y0 < x0 then 1 else 0
  let j1 : ℕ := if y0 < x0 then 0 else 1
  let x1 := x0 - (i1 : ℝ) + skewG2
  let y1 := y0 - (j1 : ℝ) + skewG2
  let x2 := x0 - 1 + 2 * skewG2
  let y2 := y0 - 1 + 2 * skewG2
  let ii : ℕ := (i % 256).toNat
  let jj : ℕ := (j % 256).toNat
  let n0 := cornerContrib t ii jj x0 y0
  let n1 := cornerContrib t (ii + i1) (jj + j1) x1 y1
  let n2 := cornerContrib t (ii + 1) (jj + 1) x2 y2
  70 * (n0 + n1 + n2)

/-- Bounds-checked corner contribution: every table access is performed with
an explicit range check (`none` = the JavaScript lookup would have read out
of the table's 512 entries, or the gradient index would miss `grad3`). -/
noncomputable def cornerContribChecked (t : SimplexTables) (a b : ℕ) (dx dy : ℝ) : Option ℝ :=
  let t0 : ℝ := 0.5 - dx * dx - dy * dy
  if 0 ≤ t0 then
    match t.perm[b]? with
    | none => none
    | some pb =>
      match t.permMod12[a + pb]? with
      | none => none
      | some gi =>
        match grad3[gi]? with
        | none => none
        | some g => some (t0 * t0 * (t0 * t0) * ((g.1 : ℝ) * dx + (g.2.1 : ℝ) * dy))
  else some 0

/-- `noise2D` with every table lookup bounds-checked. -/
noncomputable def noise2DChecked (t : SimplexTables) (x y : ℝ) : Option ℝ :=
  let s := (x + y) * skewF2
  let i : ℤ := ⌊x + s⌋
  let j : ℤ := ⌊y + s⌋
  let tt : ℝ := ((i + j : ℤ) : ℝ) * skewG2
  let x0 := x - ((i : ℝ) - tt)
  let y0 := y - ((j : ℝ) - tt)
  let i1 : ℕ := if y0 < x0 then 1 else 0
  let j1 : ℕ := if y0 < x0 then 0 else 1
  let x1 := x0 - (i1 : ℝ) + skewG2
  let y1 := y0 - (j1 : ℝ) + skewG2
  let x2 := x0 - 1 + 2 * skewG2
  let y2 := y0 - 1 + 2 * skewG2
  let ii : ℕ := (i % 256).toNat
  let jj : ℕ := (j % 256).toNat
  match cornerContribChecked t ii jj x0 y0,
        cornerContribChecked t (ii + i1) (jj + j1) x1 y1,
        cornerContribChecked t (ii + 1) (jj + 1) x2 y2 with
  | some n0, some n1, some n2 => some (70 * (n0 + n1 + n2))
  | _, _, _ => none

/-! Bounds facts about the seeded tables, leading to totality of `noise2D`. -/

/-- A default-0 read from a list of bytes is a byte. -/
theorem getD_lt_256 {l : List ℕ} (h : ∀ v ∈ l, v < 256) (n : ℕ) :
    l.getD n 0 < 256 := by
  induction l generalizing n with
  | nil => simp [List.getD]
  | cons a t ih =>
    cases n with
    | zero => simpa using h a (by simp)
    | succ m =>
      simpa using ih (fun v hv => h v (by simp [hv])) m

theorem tableRead_lt_256 {l : List ℕ} (h : ∀ v ∈ l, v < 256) (j : ℤ) :
    tableRead l j < 256 := by
  unfold tableRead
  split
  · exact getD_lt_256 h _
  · norm_num

theorem set_all_lt_256 {l : List ℕ} (h : ∀ v ∈ l, v < 256) {v : ℕ}
    (hv : v < 256) (n : ℕ) : ∀ w ∈ l.set n v, w < 256 := by
  intro w hw
  rcases List.mem_or_eq_of_mem_set hw with hmem | rfl
  · exact h w hmem
  · exact hv

theorem tableWrite_all_lt_256 {l : List ℕ} (h : ∀ v ∈ l, v < 256) {v : ℕ}
    (hv : v < 256) (j : ℤ) : ∀ w ∈ tableWrite l j v, w < 256 := by
  unfold tableWrite
  split
  · exact set_all_lt_256 h hv _
  · exact h

theorem permSwap_all_lt_256 {p : List ℕ} (h : ∀ v ∈ p, v < 256) (i : ℕ)
    (j : ℤ) : ∀ w ∈ permSwap p i j, w < 256 := by
  unfold permSwap
  exact tableWrite_all_lt_256
    (set_all_lt_256 h (tableRead_lt_256 h j) i) (getD_lt_256 h i) j

theorem foldl_seedStep_all_lt_256 (L : List ℕ) (sp : ℚ × List ℕ)
    (h : ∀ v ∈ sp.2, v < 256) : ∀ v ∈ (L.foldl seedStep sp).2, v < 256 := by
  induction L generalizing sp with
  | nil => simpa using h
  | cons a L ih =>
    simp only [List.foldl_cons]
    refine ih _ ?_
    unfold seedStep
    exact permSwap_all_lt_256 h _ _

set_option maxRecDepth 4000 in
/-- Every entry of the shuffled base permutation is a byte. -/
theorem seededPerm_all_lt_256 (seed : ℚ) : ∀ v ∈ seededPerm seed, v < 256 := by
  unfold seededPerm
  refine foldl_seedStep_all_lt_256 _ _ ?_
  intro v hv
  exact List.mem_range.mp hv

theorem getElem?_eq_some_getD {l : List ℕ} {n : ℕ} (h : n < l.length) :
    l[n]? = some (l.getD n 0) := by
  rw [List.getElem?_eq_getElem h, List.getD_eq_getElem?_getD,
    List.getElem?_eq_getElem h]
  rfl

theorem getElem?_eq_some_getD_triple {l : List (ℤ × ℤ × ℤ)} {n : ℕ}
    (h : n < l.length) : l[n]? = some (l.getD n (0, 0, 0)) := by
  rw [List.getElem?_eq_getElem h, List.getD_eq_getElem?_getD,
    List.getElem?_eq_getElem h]
  rfl

/-- A default-0 read from a list of values below `m` stays below `m`. -/
theorem getD_lt_bound {l : List ℕ} {m : ℕ} (hm : 0 < m)
    (h : ∀ v ∈ l, v < m) (n : ℕ) : l.getD n 0 < m := by
  induction l generalizing n with
  | nil => simpa [List.getD]
  | cons a t ih =>
    cases n with
    | zero => simpa using h a (by simp)
    | succ k =>
      simpa using ih (fun v hv => h v (by simp [hv])) k

/-- On tables with the seeded shape (512 entries, byte-valued `perm`,
`permMod12` valued below 12), every checked corner lookup succeeds and
agrees with the unchecked computation, provided the first index is at most
256 and the second below 512 — exactly the ranges produced by `noise2D`. -/
theorem cornerContribChecked_eq (t : SimplexTables)
    (hpl : t.perm.length = 512) (hml : t.permMod12.length = 512)
    (hpv : ∀ n, t.perm.getD n 0 < 256) (hmv : ∀ n, t.permMod12.getD n 0 < 12)
    (a b : ℕ) (ha : a ≤ 256) (hb : b < 512) (dx dy : ℝ) :
    cornerContribChecked t a b dx dy = some (cornerContrib t a b dx dy) := by
  simp only [cornerContribChecked, cornerContrib]
  by_cases h : (0 : ℝ) ≤ 0.5 - dx * dx - dy * dy
  · have hb' : b < t.perm.length := by rw [hpl]; exact hb
    have hab : a + t.perm.getD b 0 < t.permMod12.length := by
      have h1 := hpv b
      rw [hml]; omega
    have hgi : t.permMod12.getD (a + t.perm.getD b 0) 0 < grad3.length := by
      have h2 := hmv (a + t.perm.getD b 0)
      simp only [grad3, List.length_cons, List.length_nil]
      omega
    simp only [if_pos h, getElem?_eq_some_getD hb', getElem?_eq_some_getD hab,
      getElem?_eq_some_getD_triple hgi]
  · simp only [if_neg h]

/-- The tables built by the constructor have 512 entries each. -/
theorem mkSimplexTables_perm_length (seed : ℚ) :
    (mkSimplexTables seed).perm.length = 512 := by
  simp only [mkSimplexTables, List.length_map, List.length_range]

theorem mkSimplexTables_permMod12_length (seed : ℚ) :
    (mkSimplexTables seed).permMod12.length = 512 := by
  simp only [mkSimplexTables, List.length_map, List.length_range]

/-- Every (default-0) read of `perm` yields a byte. -/
theorem mkSimplexTables_perm_getD_lt (seed : ℚ) (n : ℕ) :
    (mkSimplexTables seed).perm.getD n 0 < 256 := by
  refine getD_lt_bound (by norm_num) ?_ n
  intro v hv
  simp only [mkSimplexTables, List.mem_map] at hv
  obtain ⟨i, _, rfl⟩ := hv
  exact getD_lt_256 (seededPerm_all_lt_256 seed) _

/-- Every (default-0) read of `permMod12` is a valid `grad3` index. -/
theorem mkSimplexTables_permMod12_getD_lt (seed : ℚ) (n : ℕ) :
    (mkSimplexTables seed).permMod12.getD n 0 < 12 := by
  refine getD_lt_bound (by norm_num) ?_ n
  intro v hv
  simp only [mkSimplexTables, List.mem_map] at hv
  obtain ⟨i, _, rfl⟩ := hv
  exact Nat.mod_lt _ (by norm_num)

theorem noise2D_total_aux (t : SimplexTables)
    (hpl : t.perm.length = 512) (hml : t.permMod12.length = 512)
    (hpv : ∀ n, t.perm.getD n 0 < 256) (hmv : ∀ n, t.permMod12.getD n 0 < 12)
    (x y : ℝ) : noise2DChecked t x y = some (noise2D t x y) := by
  have key : ∀ (a b : ℕ) (dx dy : ℝ), a ≤ 256 → b < 512 →
      cornerContribChecked t a b dx dy = some (cornerContrib t a b dx dy) := by
    intro a b dx dy ha hb
    exact cornerContribChecked_eq t hpl hml hpv hmv a b ha hb dx dy
  have hmod : ∀ z : ℤ, (z % 256).toNat ≤ 255 := by
    intro z
    have h1 : z % 256 < 256 := Int.emod_lt_of_pos z (by norm_num)
    have h2 : 0 ≤ z % 256 := Int.emod_nonneg z (by norm_num)
    omega
  simp only [noise2DChecked, noise2D]
  rw [key, key, key] <;>
    first
      | rfl
      | (have h1 := hmod ⌊x + (x + y) * skewF2⌋
         have h2 := hmod ⌊y + (x + y) * skewF2⌋
         (try split) <;> omega)

/-- **C7.** `noise2D` is total: for every seed used to construct a
`SimplexNoise` instance and every input `(x, y)`, the bounds-checked
evaluation succeeds — every `perm` / `permMod12` lookup stays inside the
512 duplicated entries, the gradient index selects one of the 12 `grad3`
entries, and the checked result agrees with the unchecked function. -/
theorem noise2D_total (seed : ℚ) (x y : ℝ) :
    noise2DChecked (mkSimplexTables seed) x y
      = some (noise2D (mkSimplexTables seed) x y) := by
  exact noise2D_total_aux (mkSimplexTables seed)
    (mkSimplexTables_perm_length seed) (mkSimplexTables_permMod12_length seed)
    (mkSimplexTables_perm_getD_lt seed) (mkSimplexTables_permMod12_getD_lt seed)
    x y

/-! ### fBm and the terrain generator
(src/utils/noise.js `fbm`, src/world/terrain/terrainGenerator.js)

`fbm` is translated as the source's accumulator loop over
`(value, amplitude, frequency, maxValue)`.  The terrain height function is
parametric in the three noise instances it consumes (`this._continental`,
`this._detail`, `this._micro`). -/

/-- The loop body of `SimplexNoise.fbm`, one recursive step per octave. -/
noncomputable def fbmGo (noise : ℝ → ℝ → ℝ) (x y lac gain : ℝ) :
    ℕ → ℝ → ℝ → ℝ → ℝ → ℝ × ℝ
  | 0, value, _amp, _freq, maxV => (value, maxV)
  | n + 1, value, amp, freq, maxV =>
      fbmGo noise x y lac gain n
        (value + amp * noise (x * freq) (y * freq))
        (amp * gain) (freq * lac) (maxV + amp)

/-- `SimplexNoise.fbm(x, y, octaves, lacunarity, gain)`: run the loop from
`value = 0`, `amplitude = 1`, `frequency = 1`, `maxValue = 0` and divide the
accumulated value by the accumulated amplitude sum. -/
noncomputable def fbm (noise : ℝ → ℝ → ℝ) (x y : ℝ) (octaves : ℕ)
    (lac gain : ℝ) : ℝ :=
  let vm := fbmGo noise x y lac gain octaves 0 1 1 0
  vm.1 / vm.2

/-- fBm as the spec words it: accumulate `amplitude * noise2D(x*frequency,
y*frequency)` with `frequency *= lacunarity`, `amplitude *= gain` per
octave, and divide the total by the sum of per-octave amplitudes. -/
noncomputable def specFbm (noise : ℝ → ℝ → ℝ) (x y : ℝ) (octaves : ℕ)
    (lac gain : ℝ) : ℝ :=
  (∑ i ∈ Finset.range octaves, gain ^ i * noise (x * lac ^ i) (y * lac ^ i)) /
    (∑ i ∈ Finset.range octaves, gain ^ i)

theorem fbmGo_closed (noise : ℝ → ℝ → ℝ) (x y lac gain : ℝ) (n : ℕ)
    (v a f m : ℝ) :
    fbmGo noise x y lac gain n v a f m =
      (v + ∑ i ∈ Finset.range n,
          a * gain ^ i * noise (x * (f * lac ^ i)) (y * (f * lac ^ i)),
        m + ∑ i ∈ Finset.range n, a * gain ^ i) := by
  induction n generalizing v a f m with
  | zero => simp [fbmGo]
  | succ k ih =>
    simp only [fbmGo]
    rw [ih]
    refine Prod.ext ?_ ?_
    · simp only
      rw [Finset.sum_range_succ']
      simp only [pow_zero, pow_succ, mul_one]
      rw [add_assoc]
      congr 1
      rw [add_comm]
      congr 1
      refine Finset.sum_congr rfl fun i _ => ?_
      ring_nf
    · simp only
      rw [Finset.sum_range_succ']
      simp only [pow_zero, pow_succ, mul_one]
      rw [add_assoc]
      congr 1
      rw [add_comm]
      refine congrArg₂ _ ?_ rfl
      refine Finset.sum_congr rfl fun i _ => ?_
      ring

/-- The loop form of `fbm` equals the spec's closed form. -/
theorem fbm_eq_specFbm (noise : ℝ → ℝ → ℝ) (x y : ℝ) (octaves : ℕ)
    (lac gain : ℝ) :
    fbm noise x y octaves lac gain = specFbm noise x y octaves lac gain := by
  unfold fbm specFbm
  rw [fbmGo_closed]
  simp [one_mul, zero_add]

/-! Terrain generation constants (src/utils/constants.js, lines 50-57). -/

def TERRAIN_HEIGHT_SCALE : ℝ := 78
def TERRAIN_CONTINENTAL_SCALE : ℝ := 0.002
def TERRAIN_CONTINENTAL_HEIGHT : ℝ := 60
def TERRAIN_DETAIL_SCALE : ℝ := 0.01
def TERRAIN_DETAIL_HEIGHT : ℝ := 15
def TERRAIN_MICRO_SCALE : ℝ := 0.05
def TERRAIN_MICRO_HEIGHT : ℝ := 3
def TERRAIN_POWER_CURVE : ℝ := 1.6

/-- The reshaping step inside `getHeightAt`:
`Math.pow(Math.max(0, normalised), TERRAIN_POWER_CURVE)`. -/
noncomputable def powerCurve (v : ℝ) : ℝ :=
  (max 0 v) ^ TERRAIN_POWER_CURVE

/-- `TerrainGenerator.getHeightAt(worldX, worldZ)`, parametric in the three
noise instances (`this._continental`, `this._detail`, `this._micro`). -/
noncomputable def terrainHeight (n1 n2 n3 : ℝ → ℝ → ℝ) (worldX worldZ : ℝ) : ℝ :=
  let h0 := fbm n1 (worldX * TERRAIN_CONTINENTAL_SCALE)
    (worldZ * TERRAIN_CONTINENTAL_SCALE) 5 2 0.5 * TERRAIN_CONTINENTAL_HEIGHT
  let h1 := h0 + fbm n2 (worldX * TERRAIN_DETAIL_SCALE)
    (worldZ * TERRAIN_DETAIL_SCALE) 4 2 0.5 * TERRAIN_DETAIL_HEIGHT
  let h := h1 + fbm n3 (worldX * TERRAIN_MICRO_SCALE)
    (worldZ * TERRAIN_MICRO_SCALE) 2 2 0.5 * TERRAIN_MICRO_HEIGHT
  let normalised := (h / TERRAIN_HEIGHT_SCALE + 1) * 0.5
  powerCurve normalised * TERRAIN_HEIGHT_SCALE

/-- The reference pipeline exactly as the claim words it, with the literal
constant values: sum three fBm passes (continental 5 octaves at frequency
0.002 scaled by 60, detail 4 octaves at 0.01 scaled by 15, micro 2 octaves
at 0.05 scaled by 3, each with lacunarity 2 and gain 0.5 over its own noise
instance), renormalize as `(h/78 + 1) * 0.5`, clamp below at 0, raise to the
power 1.6, multiply by 78. -/
noncomputable def specTerrainHeight (n1 n2 n3 : ℝ → ℝ → ℝ) (x z : ℝ) : ℝ :=
  let h := specFbm n1 (x * 0.002) (z * 0.002) 5 2 0.5 * 60 +
    specFbm n2 (x * 0.01) (z * 0.01) 4 2 0.5 * 15 +
    specFbm n3 (x * 0.05) (z * 0.05) 2 2 0.5 * 3
  (max 0 ((h / 78 + 1) * 0.5)) ^ (1.6 : ℝ) * 78

/-- **C3.** For every choice of the three per-pass noise instances and every
world coordinate, `getHeightAt` computes exactly the claim's reference
pipeline. -/
theorem getHeightAt_matches_spec (n1 n2 n3 : ℝ → ℝ → ℝ) (x z : ℝ) :
    terrainHeight n1 n2 n3 x z = specTerrainHeight n1 n2 n3 x z := by
  unfold terrainHeight specTerrainHeight powerCurve
  rw [fbm_eq_specFbm, fbm_eq_specFbm, fbm_eq_specFbm]
  rw [TERRAIN_CONTINENTAL_SCALE, TERRAIN_CONTINENTAL_HEIGHT,
    TERRAIN_DETAIL_SCALE, TERRAIN_DETAIL_HEIGHT, TERRAIN_MICRO_SCALE,
    TERRAIN_MICRO_HEIGHT, TERRAIN_HEIGHT_SCALE, TERRAIN_POWER_CURVE]

/-- **C6.** fBm normalization: if every sample of the underlying noise has
absolute value at most 1, then for any input, any `octaves ≥ 1`, any
lacunarity, and any nonnegative gain, `|fbm|` is at most 1 (the accumulated
sum is divided by the sum of per-octave amplitudes; in exact arithmetic no
tolerance is even needed). -/
theorem fbm_normalized (noise : ℝ → ℝ → ℝ) (x y : ℝ) (octaves : ℕ)
    (lac gain : ℝ) (hoct : 1 ≤ octaves) (hgain : 0 ≤ gain)
    (hnoise : ∀ a b, |noise a b| ≤ 1) :
    |fbm noise x y octaves lac gain| ≤ 1 := by
  rw [fbm_eq_specFbm, specFbm]
  have hS : (1 : ℝ) ≤ ∑ i ∈ Finset.range octaves, gain ^ i := by
    have h0 : gain ^ 0 ≤ ∑ i ∈ Finset.range octaves, gain ^ i := by
      refine Finset.single_le_sum (fun i _ => ?_) (Finset.mem_range.mpr ?_)
      · positivity
      · omega
    simpa using h0
  have hSpos : (0 : ℝ) < ∑ i ∈ Finset.range octaves, gain ^ i :=
    lt_of_lt_of_le one_pos hS
  rw [abs_div, abs_of_pos hSpos, div_le_one hSpos]
  calc |∑ i ∈ Finset.range octaves, gain ^ i * noise (x * lac ^ i) (y * lac ^ i)|
      ≤ ∑ i ∈ Finset.range octaves, |gain ^ i * noise (x * lac ^ i) (y * lac ^ i)| :=
        Finset.abs_sum_le_sum_abs _ _
    _ ≤ ∑ i ∈ Finset.range octaves, gain ^ i := by
        refine Finset.sum_le_sum fun i _ => ?_
        rw [abs_mul, abs_of_nonneg (by positivity : (0:ℝ) ≤ gain ^ i)]
        calc gain ^ i * |noise (x * lac ^ i) (y * lac ^ i)|
            ≤ gain ^ i * 1 := by
              refine mul_le_mul_of_nonneg_left (hnoise _ _) (by positivity)
          _ = gain ^ i := mul_one _

/-- Witness for `fbm_normalized` at the constant noise 1, one octave. -/
theorem fbm_normalized_witness :
    |fbm (fun _ _ => 1) 0 0 1 2 0.5| ≤ 1 :=
  fbm_normalized (fun _ _ => 1) 0 0 1 2 0.5 (le_refl 1) (by norm_num)
    (fun a b => by norm_num)

/-- **C9.** The power-curve reshaping inside `getHeightAt` is monotone
non-decreasing on normalized inputs in `[0, 1]`. -/
theorem powerCurve_monotone (a b : ℝ) (ha0 : 0 ≤ a) (ha1 : a ≤ 1)
    (hb0 : 0 ≤ b) (hb1 : b ≤ 1) (hab : a ≤ b) :
    powerCurve a ≤ powerCurve b := by
  unfold powerCurve
  refine Real.rpow_le_rpow (le_max_left 0 a) (max_le_max (le_refl 0) hab) ?_
  rw [TERRAIN_POWER_CURVE]
  norm_num

/-- Witness for `powerCurve_monotone` at `a = 0`, `b = 1`. -/
theorem powerCurve_monotone_witness : powerCurve 0 ≤ powerCurve 1 :=
  powerCurve_monotone 0 1 (le_refl 0) zero_le_one zero_le_one (le_refl 1)
    zero_le_one

/-- fBm of the identically-zero noise is 0 (used to instantiate the bounds
hypotheses of `terrainHeight_bounds` at a concrete input). -/
theorem fbm_const_zero (x y : ℝ) (octaves : ℕ) (lac gain : ℝ) :
    fbm (fun _ _ => 0) x y octaves lac gain = 0 := by
  rw [fbm_eq_specFbm, specFbm]
  simp

/-- **C10.** Whenever each of the three fBm passes of `getHeightAt` returns
a value in `[-1, 1]`, the height lies in `[0, TERRAIN_HEIGHT_SCALE]`: the
raw sum is bounded by `±(60 + 15 + 3) = ±78`, the normalized value lies in
`[0, 1]`, the power curve keeps it there, and the final rescale bounds the
result by `TERRAIN_HEIGHT_SCALE`. -/
theorem terrainHeight_bounds (n1 n2 n3 : ℝ → ℝ → ℝ) (x z : ℝ)
    (h1 : |fbm n1 (x * TERRAIN_CONTINENTAL_SCALE)
      (z * TERRAIN_CONTINENTAL_SCALE) 5 2 0.5| ≤ 1)
    (h2 : |fbm n2 (x * TERRAIN_DETAIL_SCALE)
      (z * TERRAIN_DETAIL_SCALE) 4 2 0.5| ≤ 1)
    (h3 : |fbm n3 (x * TERRAIN_MICRO_SCALE)
      (z * TERRAIN_MICRO_SCALE) 2 2 0.5| ≤ 1) :
    0 ≤ terrainHeight n1 n2 n3 x z ∧
      terrainHeight n1 n2 n3 x z ≤ TERRAIN_HEIGHT_SCALE := by
  unfold terrainHeight
  rw [TERRAIN_CONTINENTAL_HEIGHT, TERRAIN_DETAIL_HEIGHT, TERRAIN_MICRO_HEIGHT,
    TERRAIN_HEIGHT_SCALE]
  set f1 := fbm n1 (x * TERRAIN_CONTINENTAL_SCALE)
    (z * TERRAIN_CONTINENTAL_SCALE) 5 2 0.5 with hf1
  set f2 := fbm n2 (x * TERRAIN_DETAIL_SCALE)
    (z * TERRAIN_DETAIL_SCALE) 4 2 0.5 with hf2
  set f3 := fbm n3 (x * TERRAIN_MICRO_SCALE)
    (z * TERRAIN_MICRO_SCALE) 2 2 0.5 with hf3
  rw [abs_le] at h1 h2 h3
  have hlo : (-78 : ℝ) ≤ f1 * 60 + f2 * 15 + f3 * 3 := by nlinarith
  have hhi : f1 * 60 + f2 * 15 + f3 * 3 ≤ 78 := by nlinarith
  have hn0 : (0 : ℝ) ≤ ((f1 * 60 + f2 * 15 + f3 * 3) / 78 + 1) * 0.5 := by
    nlinarith
  have hn1 : ((f1 * 60 + f2 * 15 + f3 * 3) / 78 + 1) * 0.5 ≤ 1 := by
    nlinarith
  have hge := Real.rpow_nonneg
    (le_max_left 0 (((f1 * 60 + f2 * 15 + f3 * 3) / 78 + 1) * 0.5))
    TERRAIN_POWER_CURVE
  have hc1 : (max 0 (((f1 * 60 + f2 * 15 + f3 * 3) / 78 + 1) * 0.5))
      ^ TERRAIN_POWER_CURVE ≤ 1 := by
    refine Real.rpow_le_one (le_max_left _ _) (max_le (by norm_num) hn1) ?_
    rw [TERRAIN_POWER_CURVE]
    norm_num
  unfold powerCurve
  dsimp only
  constructor
  · nlinarith
  · nlinarith

/-- Witness for `terrainHeight_bounds` at the identically-zero noise. -/
theorem terrainHeight_bounds_witness :
    0 ≤ terrainHeight (fun _ _ => 0) (fun _ _ => 0) (fun _ _ => 0) 0 0 ∧
      terrainHeight (fun _ _ => 0) (fun _ _ => 0) (fun _ _ => 0) 0 0 ≤
        TERRAIN_HEIGHT_SCALE :=
  terrainHeight_bounds (fun _ _ => 0) (fun _ _ => 0) (fun _ _ => 0) 0 0
    (by rw [fbm_const_zero]; norm_num)
    (by rw [fbm_const_zero]; norm_num)
    (by rw [fbm_const_zero]; norm_num)

/-! ### Placement samplers (src/world/vegetation/forestManager.js,
src/world/animals/animalManager.js)

The samplers are polymorphic in the scalar type `K` (the arithmetic of the
source is plain field arithmetic) and receive the noise instance and the
terrain generator as an environment record, mirroring `this._noise` and
`this._terrain`.  Vegetation constants are those of constants.js:
`TREE_DENSITY_GRASS = 0.25`, `TREE_DENSITY_DIRT = 0.08`,
`TREE_DENSITY_ROCK = 0`, `TREE_SPACING = 6`, `TREE_MAX_PER_CHUNK = 80`,
`TREE_MIN_SCALE = 5`, `TREE_MAX_SCALE = 15`, `TREE_SLOPE_MAX = 0.35`,
`GRASS_DENSITY_GRASS = 0.4`, `GRASS_DENSITY_DIRT = 0.1`,
`GRASS_SPACING = 2`, `GRASS_MAX_PER_CHUNK = 250`, `GRASS_HEIGHT_MIN = 0.3`,
`GRASS_HEIGHT_MAX = 0.8`, `ROCK_DENSITY_GRASS = 0.03`,
`ROCK_DENSITY_DIRT = 0.08`, `ROCK_DENSITY_ROCK = 0.15`,
`ROCK_SPACING = 10`, `ROCK_MAX_PER_CHUNK = 25`,
`ROCK_BOULDER_SCALE = [8, 12.5]`, `ROCK_PEBBLE_SCALE = [2.5, 5.5]`. -/

def TREE_MAX_PER_CHUNK : ℕ := 80
def GRASS_MAX_PER_CHUNK : ℕ := 250
def ROCK_MAX_PER_CHUNK : ℕ := 25

structure SamplerEnv (K : Type) where
  noise : K → K → K
  heightAt : K → K → K
  slopeAt : K → K → K
  pi : K

structure TreePlacement (K : Type) where
  x : K
  y : K
  z : K
  scale : K
  rotation : K
  colorIdx : ℤ

structure GrassPlacement (K : Type) where
  x : K
  y : K
  z : K
  height : K
  rotation : K

structure RockPlacement (K : Type) where
  x : K
  y : K
  z : K
  scale : K
  rotation : K
  isBoulder : Bool

structure AnimalPlacement (K A : Type) where
  type : A
  x : K
  y : K
  z : K
  rotation : K
  scale : K

/-- The grid positions `0, s, 2s, …` below `CHUNK_SIZE = 64`
(`for (lx = 0; lx < CHUNK_SIZE; lx += s)`). -/
def gridSteps (s : ℕ) : List ℕ :=
  (List.range (63 / s + 1)).map (fun k => k * s)

/-- `ForestManager._hash(x, z, offset)`:
`(noise2D(x * 0.37 + offset, z * 0.37 + offset) + 1) * 0.5`. -/
def forestHash {K : Type} [LinearOrderedField K]
    (noise : K → K → K) (x z offset : K) : K :=
  (noise (x * 0.37 + offset) (z * 0.37 + offset) + 1) * 0.5

/-- `ForestManager._getBiomeDensity(h)` as the triple
(treeDensity, grassDensity, rockDensity), using the biome thresholds
`BIOME_GRASS_MAX = 0.18`, `BIOME_DIRT_MAX = 0.38`, `BIOME_ROCK_MAX = 0.7`. -/
def biomeDensity {K : Type} [LinearOrderedField K] (h : K) : K × K × K :=
  if h < 0.18 then (0.25, 0.4, 0.03)
  else if h < 0.38 then (0.08, 0.1, 0.08)
  else if h < 0.7 then (0, 0, 0.15)
  else (0, 0, 0)

section Samplers

variable {K : Type} [LinearOrderedField K] [FloorRing K]

/-- One grid cell of `_sampleTrees`.  `none` means the `continue` on steep
slopes was taken (which in the source also skips the cap check). -/
def treeCell (env : SamplerEnv K) (cx cz : ℤ) (c : ℕ × ℕ)
    (acc : List (TreePlacement K)) : Option (List (TreePlacement K)) :=
  let originX : K := (cx : K) * 64
  let originZ : K := (cz : K) * 64
  let jx := forestHash env.noise (originX + (c.1 : K)) (originZ + (c.2 : K)) 100 * 6 * 0.8
  let jz := forestHash env.noise (originX + (c.1 : K)) (originZ + (c.2 : K)) 200 * 6 * 0.8
  let worldX := originX + (c.1 : K) + jx
  let worldZ := originZ + (c.2 : K) + jz
  let height := env.heightAt worldX worldZ
  let slope := env.slopeAt worldX worldZ
  let normH := max 0 height / 78
  if slope > 0.35 then none
  else
    let treeDensity := (biomeDensity normH).1
    let roll := forestHash env.noise worldX worldZ 300
    if roll < treeDensity then
      some (acc ++
        [{ x := worldX, y := height, z := worldZ,
           scale := 5 + forestHash env.noise worldX worldZ 400 * (15 - 5),
           rotation := forestHash env.noise worldX worldZ 500 * env.pi * 2,
           colorIdx := ⌊forestHash env.noise worldX worldZ 600 * 4⌋ }])
    else some acc

/-- The inner `lz` loop of `_sampleTrees`, with the
`if (placements.length >= TREE_MAX_PER_CHUNK) break` check after each
non-skipped cell. -/
def treeRowGo (env : SamplerEnv K) (cx cz : ℤ) :
    List (ℕ × ℕ) → List (TreePlacement K) → List (TreePlacement K)
  | [], acc => acc
  | c :: cs, acc =>
      match treeCell env cx cz c acc with
      | none => treeRowGo env cx cz cs acc
      | some acc' =>
          if TREE_MAX_PER_CHUNK ≤ acc'.length then acc'
          else treeRowGo env cx cz cs acc'

/-- The outer `lx` loop of `_sampleTrees`, with its own cap check after each
row. -/
def treeRowsGo (env : SamplerEnv K) (cx cz : ℤ) :
    List ℕ → List (TreePlacement K) → List (TreePlacement K)
  | [], acc => acc
  | lx :: rest, acc =>
      let acc' := treeRowGo env cx cz ((gridSteps 6).map (fun lz => (lx, lz))) acc
      if TREE_MAX_PER_CHUNK ≤ acc'.length then acc'
      else treeRowsGo env cx cz rest acc'

/-- `ForestManager._sampleTrees(cx, cz)`. -/
def sampleTrees (env : SamplerEnv K) (cx cz : ℤ) : List (TreePlacement K) :=
  treeRowsGo env cx cz (gridSteps 6) []

/-- One grid cell of `_sampleGrass` (no slope rejection in the source). -/
def grassCell (env : SamplerEnv K) (cx cz : ℤ) (c : ℕ × ℕ)
    (acc : List (GrassPlacement K)) : List (GrassPlacement K) :=
  let originX : K := (cx : K) * 64
  let originZ : K := (cz : K) * 64
  let jx := forestHash env.noise (originX + (c.1 : K)) (originZ + (c.2 : K)) 700 * 2 * 0.9
  let jz := forestHash env.noise (originX + (c.1 : K)) (originZ + (c.2 : K)) 800 * 2 * 0.9
  let worldX := originX + (c.1 : K) + jx
  let worldZ := originZ + (c.2 : K) + jz
  let height := env.heightAt worldX worldZ
  let normH := max 0 height / 78
  let grassDensity := (biomeDensity normH).2.1
  let roll := forestHash env.noise worldX worldZ 900
  if roll < grassDensity then
    acc ++
      [{ x := worldX, y := height, z := worldZ,
         height := 0.3 + forestHash env.noise worldX worldZ 1000 * (0.8 - 0.3),
         rotation := forestHash env.noise worldX worldZ 1100 * env.pi * 2 }]
  else acc

def grassRowGo (env : SamplerEnv K) (cx cz : ℤ) :
    List (ℕ × ℕ) → List (GrassPlacement K) → List (GrassPlacement K)
  | [], acc => acc
  | c :: cs, acc =>
      let acc' := grassCell env cx cz c acc
      if GRASS_MAX_PER_CHUNK ≤ acc'.length then acc'
      else grassRowGo env cx cz cs acc'

def grassRowsGo (env : SamplerEnv K) (cx cz : ℤ) :
    List ℕ → List (GrassPlacement K) → List (GrassPlacement K)
  | [], acc => acc
  | lx :: rest, acc =>
      let acc' := grassRowGo env cx cz ((gridSteps 2).map (fun lz => (lx, lz))) acc
      if GRASS_MAX_PER_CHUNK ≤ acc'.length then acc'
      else grassRowsGo env cx cz rest acc'

/-- `ForestManager._sampleGrass(cx, cz)`. -/
def sampleGrass (env : SamplerEnv K) (cx cz : ℤ) : List (GrassPlacement K) :=
  grassRowsGo env cx cz (gridSteps 2) []

/-- One grid cell of `_sampleRocks`.  The source has no cap check in this
sampler — every accepted cell is appended. -/
def rockCell (env : SamplerEnv K) (cx cz : ℤ)
    (acc : List (RockPlacement K)) (c : ℕ × ℕ) : List (RockPlacement K) :=
  let originX : K := (cx : K) * 64
  let originZ : K := (cz : K) * 64
  let jx := forestHash env.noise (originX + (c.1 : K)) (originZ + (c.2 : K)) 1200 * 10 * 0.7
  let jz := forestHash env.noise (originX + (c.1 : K)) (originZ + (c.2 : K)) 1300 * 10 * 0.7
  let worldX := originX + (c.1 : K) + jx
  let worldZ := originZ + (c.2 : K) + jz
  let height := env.heightAt worldX worldZ
  let normH := max 0 height / 78
  let rockDensity := (biomeDensity normH).2.2
  let roll := forestHash env.noise worldX worldZ 1400
  if roll < rockDensity then
    let isBoulder := forestHash env.noise worldX worldZ 1500 > 0.6
    let scaleLo : K := if isBoulder then 8 else 2.5
    let scaleHi : K := if isBoulder then 12.5 else 5.5
    acc ++
      [{ x := worldX, y := height, z := worldZ,
         scale := scaleLo + forestHash env.noise worldX worldZ 1600 * (scaleHi - scaleLo),
         rotation := forestHash env.noise worldX worldZ 1700 * env.pi * 2,
         isBoulder := isBoulder }]
  else acc

/-- The row-major cell grid of `_sampleRocks` (`ROCK_SPACING = 10`). -/
def rockCells : List (ℕ × ℕ) :=
  (gridSteps 10).flatMap (fun lx => (gridSteps 10).map (fun lz => (lx, lz)))

/-- `ForestManager._sampleRocks(cx, cz)`. -/
def sampleRocks (env : SamplerEnv K) (cx cz : ℤ) : List (RockPlacement K) :=
  rockCells.foldl (rockCell env cx cz) []

/-- `AnimalManager._hash(x, z, offset)` (multiplier 0.13). -/
def animalHash (noise : K → K → K) (x z offset : K) : K :=
  (noise (x * 0.13 + offset) (z * 0.13 + offset) + 1) * 0.5

/-- The inner `i` loop of `_sampleAnimals` for one animal type: the cap is
checked at the top of every iteration (`if (total >= ANIMAL_MAX_PER_CHUNK)
break`), and the slope rejection `continue`s without pushing. -/
def animalInnerGo (env : SamplerEnv K) {A : Type} (scaleFor : A → K)
    (tagLen : A → ℕ) (maxA : ℕ) (cx cz : ℤ) (t : A) :
    List ℕ → List (AnimalPlacement K A) → List (AnimalPlacement K A)
  | [], acc => acc
  | i :: rest, acc =>
      if maxA ≤ acc.length then acc
      else
        let originX : K := (cx : K) * 64
        let originZ : K := (cz : K) * 64
        let rx := animalHash env.noise (cx : K) (cz : K) ((i : K) * 31 + (tagLen t : K)) * 64
        let rz := animalHash env.noise (cx : K) (cz : K) ((i : K) * 47 + (tagLen t : K)) * 64
        let worldX := originX + rx
        let worldZ := originZ + rz
        let height := env.heightAt worldX worldZ
        let slope := env.slopeAt worldX worldZ
        if slope > 0.6 then animalInnerGo env scaleFor tagLen maxA cx cz t rest acc
        else
          animalInnerGo env scaleFor tagLen maxA cx cz t rest
            (acc ++
              [{ type := t, x := worldX, y := height, z := worldZ,
                 rotation := animalHash env.noise worldX worldZ ((i : K) + 11) * env.pi * 2,
                 scale := scaleFor t }])

/-- The outer loop of `_sampleAnimals` over `ANIMAL_MEAN_COUNTS` entries:
per type, a noise-derived count `floor(max(0, roll * mean * 1.6))`, then the
inner placement loop, then the outer cap check. -/
def animalTypesGo (env : SamplerEnv K) {A : Type} (scaleFor : A → K)
    (tagLen : A → ℕ) (maxA : ℕ) (cx cz : ℤ) :
    List (A × K) → List (AnimalPlacement K A) → List (AnimalPlacement K A)
  | [], acc => acc
  | (t, mean) :: rest, acc =>
      let roll := animalHash env.noise (cx : K) (cz : K) ((tagLen t : K) * 13)
      let count : ℤ := ⌊max 0 (roll * mean * 1.6)⌋
      let acc' := animalInnerGo env scaleFor tagLen maxA cx cz t
        (List.range count.toNat) acc
      if maxA ≤ acc'.length then acc'
      else animalTypesGo env scaleFor tagLen maxA cx cz rest acc'

/-- `AnimalManager._sampleAnimals(cx, cz)`, parametric in the animal-type
tag `A`, its JavaScript string length `tagLen`, its scale table `scaleFor`,
the `ANIMAL_MEAN_COUNTS` entry list, and `ANIMAL_MAX_PER_CHUNK`. -/
def sampleAnimals (env : SamplerEnv K) {A : Type} (scaleFor : A → K)
    (tagLen : A → ℕ) (meanCounts : List (A × K)) (maxA : ℕ) (cx cz : ℤ) :
    List (AnimalPlacement K A) :=
  animalTypesGo env scaleFor tagLen maxA cx cz meanCounts []

end Samplers

/-! Cap lemmas for the samplers. -/

section SamplerCaps

variable {K : Type} [LinearOrderedField K] [FloorRing K]

theorem treeCell_len {env : SamplerEnv K} {cx cz : ℤ} {c : ℕ × ℕ}
    {acc acc' : List (TreePlacement K)}
    (h : treeCell env cx cz c acc = some acc') :
    acc'.length ≤ acc.length + 1 := by
  simp only [treeCell] at h
  split_ifs at h <;>
    first
      | exact Option.noConfusion h
      | (obtain rfl := Option.some.inj h; simp)

theorem treeRowGo_len (env : SamplerEnv K) (cx cz : ℤ)
    (cells : List (ℕ × ℕ)) (acc : List (TreePlacement K))
    (h : acc.length < TREE_MAX_PER_CHUNK) :
    (treeRowGo env cx cz cells acc).length ≤ TREE_MAX_PER_CHUNK := by
  induction cells generalizing acc with
  | nil => simpa [treeRowGo] using le_of_lt h
  | cons c cs ih =>
    rw [treeRowGo]
    cases hc : treeCell env cx cz c acc with
    | none => exact ih acc h
    | some acc' =>
      have hlen := treeCell_len hc
      dsimp only
      by_cases hcap : TREE_MAX_PER_CHUNK ≤ acc'.length
      · rw [if_pos hcap]
        omega
      · rw [if_neg hcap]
        exact ih acc' (by omega)

theorem treeRowsGo_len (env : SamplerEnv K) (cx cz : ℤ)
    (rows : List ℕ) (acc : List (TreePlacement K))
    (h : acc.length < TREE_MAX_PER_CHUNK) :
    (treeRowsGo env cx cz rows acc).length ≤ TREE_MAX_PER_CHUNK := by
  induction rows generalizing acc with
  | nil => simpa [treeRowsGo] using le_of_lt h
  | cons lx rest ih =>
    rw [treeRowsGo]
    have hrow := treeRowGo_len env cx cz
      ((gridSteps 6).map (fun lz => (lx, lz))) acc h
    by_cases hcap : TREE_MAX_PER_CHUNK ≤
        (treeRowGo env cx cz ((gridSteps 6).map (fun lz => (lx, lz))) acc).length
    · rw [if_pos hcap]
      exact hrow
    · rw [if_neg hcap]
      exact ih _ (by omega)

theorem grassCell_len (env : SamplerEnv K) (cx cz : ℤ) (c : ℕ × ℕ)
    (acc : List (GrassPlacement K)) :
    (grassCell env cx cz c acc).length ≤ acc.length + 1 := by
  simp only [grassCell]
  split_ifs <;> simp

theorem grassRowGo_len (env : SamplerEnv K) (cx cz : ℤ)
    (cells : List (ℕ × ℕ)) (acc : List (GrassPlacement K))
    (h : acc.length < GRASS_MAX_PER_CHUNK) :
    (grassRowGo env cx cz cells acc).length ≤ GRASS_MAX_PER_CHUNK := by
  induction cells generalizing acc with
  | nil => simpa [grassRowGo] using le_of_lt h
  | cons c cs ih =>
    rw [grassRowGo]
    have hlen := grassCell_len env cx cz c acc
    by_cases hcap : GRASS_MAX_PER_CHUNK ≤ (grassCell env cx cz c acc).length
    · rw [if_pos hcap]
      omega
    · rw [if_neg hcap]
      exact ih _ (by omega)

theorem grassRowsGo_len (env : SamplerEnv K) (cx cz : ℤ)
    (rows : List ℕ) (acc : List (GrassPlacement K))
    (h : acc.length < GRASS_MAX_PER_CHUNK) :
    (grassRowsGo env cx cz rows acc).length ≤ GRASS_MAX_PER_CHUNK := by
  induction rows generalizing acc with
  | nil => simpa [grassRowsGo] using le_of_lt h
  | cons lx rest ih =>
    rw [grassRowsGo]
    have hrow := grassRowGo_len env cx cz
      ((gridSteps 2).map (fun lz => (lx, lz))) acc h
    by_cases hcap : GRASS_MAX_PER_CHUNK ≤
        (grassRowGo env cx cz ((gridSteps 2).map (fun lz => (lx, lz))) acc).length
    · rw [if_pos hcap]
      exact hrow
    · rw [if_neg hcap]
      exact ih _ (by omega)

theorem rockCell_len (env : SamplerEnv K) (cx cz : ℤ)
    (acc : List (RockPlacement K)) (c : ℕ × ℕ) :
    (rockCell env cx cz acc c).length ≤ acc.length + 1 := by
  simp only [rockCell]
  split_ifs <;> simp

theorem foldl_rockCell_len (env : SamplerEnv K) (cx cz : ℤ)
    (cells : List (ℕ × ℕ)) (acc : List (RockPlacement K)) :
    (cells.foldl (rockCell env cx cz) acc).length ≤ acc.length + cells.length := by
  induction cells generalizing acc with
  | nil => simp
  | cons c cs ih =>
    rw [List.foldl_cons]
    have h1 := rockCell_len env cx cz acc c
    have h2 := ih (rockCell env cx cz acc c)
    simpa [Nat.succ_eq_add_one] using le_trans h2 (by omega)

theorem animalInnerGo_len (env : SamplerEnv K) {A : Type} (scaleFor : A → K)
    (tagLen : A → ℕ) (maxA : ℕ) (cx cz : ℤ) (t : A) (is : List ℕ)
    (acc : List (AnimalPlacement K A)) (h : acc.length ≤ maxA) :
    (animalInnerGo env scaleFor tagLen maxA cx cz t is acc).length ≤ maxA := by
  induction is generalizing acc with
  | nil => simpa [animalInnerGo]
  | cons i rest ih =>
    rw [animalInnerGo]
    by_cases hcap : maxA ≤ acc.length
    · rw [if_pos hcap]
      exact h
    · rw [if_neg hcap]
      dsimp only
      split_ifs
      · exact ih acc h
      · refine ih _ ?_
        simp only [List.length_append, List.length_cons, List.length_nil]
        omega

theorem animalTypesGo_len (env : SamplerEnv K) {A : Type} (scaleFor : A → K)
    (tagLen : A → ℕ) (maxA : ℕ) (cx cz : ℤ) (ts : List (A × K))
    (acc : List (AnimalPlacement K A)) (h : acc.length ≤ maxA) :
    (animalTypesGo env scaleFor tagLen maxA cx cz ts acc).length ≤ maxA := by
  induction ts generalizing acc with
  | nil => simpa [animalTypesGo]
  | cons tm rest ih =>
    obtain ⟨t, mean⟩ := tm
    rw [animalTypesGo]
    have hinner : ∀ is : List ℕ,
        (animalInnerGo env scaleFor tagLen maxA cx cz t is acc).length ≤ maxA :=
      fun is => animalInnerGo_len env scaleFor tagLen maxA cx cz t is acc h
    split_ifs with hcap
    · exact hinner _
    · exact ih _ (hinner _)

end SamplerCaps

/-! C4: caps.  The tree, grass and animal samplers enforce their per-chunk
maxima through in-loop break checks; the rock sampler has no such check, so
its list is bounded only by the 49 candidate grid cells
(`⌈64 / ROCK_SPACING⌉² = 7²`), not by `ROCK_MAX_PER_CHUNK = 25` (that cap is
applied later, at mesh-instancing time, via
`Math.min(count, ROCK_MAX_PER_CHUNK)` in rockSystem.js). -/

/-- A concrete sampler environment over `ℚ` on which every rock-placement
roll succeeds: the noise is constantly `-1` (so every `_hash` is `0`,
and `0 < ROCK_DENSITY_GRASS = 0.03`), the terrain is flat at height 0.
`pi` is the double value of `Math.PI`. -/
def rockEnvZero : SamplerEnv ℚ :=
  { noise := fun _ _ => -1
    heightAt := fun _ _ => 0
    slopeAt := fun _ _ => 0
    pi := 3.141592653589793 }

theorem rockCell_rockEnvZero_len (acc : List (RockPlacement ℚ)) (c : ℕ × ℕ) :
    (rockCell rockEnvZero 0 0 acc c).length = acc.length + 1 := by
  simp only [rockCell, rockEnvZero, forestHash, biomeDensity]
  norm_num

theorem foldl_rockCell_rockEnvZero_len (cells : List (ℕ × ℕ))
    (acc : List (RockPlacement ℚ)) :
    (cells.foldl (rockCell rockEnvZero 0 0) acc).length =
      acc.length + cells.length := by
  induction cells generalizing acc with
  | nil => simp
  | cons c cs ih =>
    rw [List.foldl_cons, ih, rockCell_rockEnvZero_len]
    simp only [List.length_cons]
    omega

/-- **C4 counterexample.** At chunk `(0, 0)` with the environment
`rockEnvZero`, `_sampleRocks` returns 49 placements — more than
`ROCK_MAX_PER_CHUNK = 25`.  The claim that every placement sampler bounds
its list by the type's configured per-chunk maximum is false for rocks. -/
theorem sampleRocks_exceeds_cap :
    ROCK_MAX_PER_CHUNK < (sampleRocks rockEnvZero 0 0).length := by
  rw [sampleRocks, foldl_rockCell_rockEnvZero_len]
  rw [ROCK_MAX_PER_CHUNK]
  decide

/-- **C4 (amended).** Per-chunk placement caps: tree placements are at most
`TREE_MAX_PER_CHUNK`, grass placements at most `GRASS_MAX_PER_CHUNK`,
animal placements at most `ANIMAL_MAX_PER_CHUNK`, while rock placements are
bounded only by the 49 candidate grid cells (`⌈CHUNK_SIZE/ROCK_SPACING⌉²`),
not by `ROCK_MAX_PER_CHUNK` — that cap is enforced downstream at
instancing time. -/
theorem sampler_density_caps (K : Type) [LinearOrderedField K] [FloorRing K]
    (env : SamplerEnv K) (A : Type) (scaleFor : A → K) (tagLen : A → ℕ)
    (meanCounts : List (A × K)) (maxA : ℕ) (cx cz : ℤ) :
    (sampleTrees env cx cz).length ≤ TREE_MAX_PER_CHUNK ∧
    (sampleGrass env cx cz).length ≤ GRASS_MAX_PER_CHUNK ∧
    (sampleAnimals env scaleFor tagLen meanCounts maxA cx cz).length ≤ maxA ∧
    (sampleRocks env cx cz).length ≤ 49 := by
  refine ⟨?_, ?_, ?_, ?_⟩
  · exact treeRowsGo_len env cx cz _ [] (by rw [TREE_MAX_PER_CHUNK]; norm_num)
  · exact grassRowsGo_len env cx cz _ [] (by rw [GRASS_MAX_PER_CHUNK]; norm_num)
  · exact animalTypesGo_len env scaleFor tagLen maxA cx cz meanCounts []
      (by simp)
  · have h := foldl_rockCell_len env cx cz rockCells []
    have hlen : rockCells.length = 49 := by decide
    simp only [List.length_nil] at h
    rw [sampleRocks]
    omega

/-! ### Seed-derived world construction and determinism (C5)

`TerrainGenerator`'s constructor derives three noise instances from one
seed (`seed`, `seed * 2.713`, `seed * 7.919`); `ForestManager` derives its
placement noise from `seed * 3.141`.  All query functions below are pure
functions of the constructed tables — the JavaScript methods read the
tables and local variables only, never mutating instance state after
construction. -/

structure TerrainGen where
  continental : SimplexTables
  detail : SimplexTables
  micro : SimplexTables

/-- `new TerrainGenerator(seed)`. -/
def mkTerrainGen (seed : ℚ) : TerrainGen :=
  { continental := mkSimplexTables seed
    detail := mkSimplexTables (seed * 2.713)
    micro := mkSimplexTables (seed * 7.919) }

/-- `TerrainGenerator.getHeightAt` on a constructed instance. -/
noncomputable def TerrainGen.heightAt (g : TerrainGen) (x z : ℝ) : ℝ :=
  terrainHeight (noise2D g.continental) (noise2D g.detail) (noise2D g.micro) x z

/-- `TerrainGenerator.getSlopeAt(x, z, sampleDist)`: forward differences in
+X and +Z, gradient magnitude over 2, clamped to 1. -/
noncomputable def TerrainGen.slopeAt (g : TerrainGen) (x z d : ℝ) : ℝ :=
  let hC := g.heightAt x z
  let hR := g.heightAt (x + d) z
  let hF := g.heightAt x (z + d)
  let dx := (hR - hC) / d
  let dz := (hF - hC) / d
  min 1 (Real.sqrt (dx * dx + dz * dz) / 2)

/-- The world-manager-owned generator pair: terrain plus forest noise
(`new ForestManager(scene, this.chunkLoader.generator, seed)`). -/
structure GameWorld where
  terrain : TerrainGen
  forestNoise : SimplexTables

def mkGameWorld (seed : ℚ) : GameWorld :=
  { terrain := mkTerrainGen seed
    forestNoise := mkSimplexTables (seed * 3.141) }

/-- The sampler environment a constructed world passes to the vegetation
samplers: its own noise instance, the shared terrain generator, `Math.PI`. -/
noncomputable def GameWorld.env (w : GameWorld) : SamplerEnv ℝ :=
  { noise := noise2D w.forestNoise
    heightAt := w.terrain.heightAt
    slopeAt := fun x z => w.terrain.slopeAt x z 1
    pi := Real.pi }

/-- One core query against the world. -/
inductive WorldQuery where
  | height (x z : ℝ)
  | trees (cx cz : ℤ)
  | grass (cx cz : ℤ)
  | rocks (cx cz : ℤ)

inductive WorldAnswer where
  | heightA (h : ℝ)
  | treesA (l : List (TreePlacement ℝ))
  | grassA (l : List (GrassPlacement ℝ))
  | rocksA (l : List (RockPlacement ℝ))

/-- Answer a single query: each call reads only the constructed tables and
its arguments (the source methods have no mutable state besides the
construction-time tables). -/
noncomputable def answerQuery (w : GameWorld) : WorldQuery → WorldAnswer
  | .height x z => .heightA (w.terrain.heightAt x z)
  | .trees cx cz => .treesA (sampleTrees w.env cx cz)
  | .grass cx cz => .grassA (sampleGrass w.env cx cz)
  | .rocks cx cz => .rocksA (sampleRocks w.env cx cz)

/-- A whole session: a sequence of calls, answered in order. -/
noncomputable def runQueries (w : GameWorld) (qs : List WorldQuery) :
    List WorldAnswer :=
  qs.map (answerQuery w)

/-- **C5.** Determinism: take two world instances constructed from the same
seed (e.g. in two different runs) and two arbitrary call sequences; any two
positions holding the same query receive the same answer — heights and
placement lists agree byte-for-byte regardless of which instance served
them, of call order, and of whatever other calls preceded them. -/
theorem world_determinism (s : ℚ) (w1 w2 : GameWorld)
    (hw1 : w1 = mkGameWorld s) (hw2 : w2 = mkGameWorld s)
    (qs1 qs2 : List WorldQuery) (i j : ℕ)
    (hi : i < qs1.length) (hj : j < qs2.length)
    (hq : qs1.get ⟨i, hi⟩ = qs2.get ⟨j, hj⟩) :
    (runQueries w1 qs1).get ⟨i, by simpa [runQueries] using hi⟩ =
      (runQueries w2 qs2).get ⟨j, by simpa [runQueries] using hj⟩ := by
  subst hw1
  subst hw2
  simp only [List.get_eq_getElem] at hq
  simp only [runQueries, List.get_eq_getElem, List.getElem_map, hq]

/-- Witness for `world_determinism`: two single-query sessions against two
worlds built from seed 42. -/
theorem world_determinism_witness :
    (runQueries (mkGameWorld 42) [WorldQuery.height 0 0]).get
        ⟨0, by simp [runQueries]⟩ =
      (runQueries (mkGameWorld 42) [WorldQuery.height 0 0]).get
        ⟨0, by simp [runQueries]⟩ :=
  world_determinism 42 (mkGameWorld 42) (mkGameWorld 42) rfl rfl
    [WorldQuery.height 0 0] [WorldQuery.height 0 0] 0 0
    (by simp) (by simp) rfl

/-! ### BiomeSystem (biomeSystem.js)

Colours are RGB triples over `ℚ`, each channel the hex byte divided by 255
(`THREE.Color` from a hex literal).  `lerpColors` interpolates channelwise
with `a + (b - a) * t`, the same formula as `lerp` in math.js.  Thresholds:
`BIOME_GRASS_MAX = 0.18`, `BIOME_DIRT_MAX = 0.38`, `BIOME_ROCK_MAX = 0.7`,
`BIOME_SLOPE_ROCK_THRESHOLD = 0.4`. -/

def BIOME_GRASS_MAX : ℚ := 0.18
def BIOME_DIRT_MAX : ℚ := 0.38
def BIOME_ROCK_MAX : ℚ := 0.7
def BIOME_SLOPE_ROCK_THRESHOLD : ℚ := 0.4

def qlerp (a b t : ℚ) : ℚ := a + (b - a) * t

def lerpColors (c1 c2 : ℚ × ℚ × ℚ) (t : ℚ) : ℚ × ℚ × ℚ :=
  (qlerp c1.1 c2.1 t, qlerp c1.2.1 c2.2.1 t, qlerp c1.2.2 c2.2.2 t)

def COL_DEEP_GRASS : ℚ × ℚ × ℚ := (45 / 255, 90 / 255, 27 / 255)
def COL_LIGHT_GRASS : ℚ × ℚ × ℚ := (90 / 255, 140 / 255, 58 / 255)
def COL_DIRT : ℚ × ℚ × ℚ := (139 / 255, 115 / 255, 85 / 255)
def COL_ROCK : ℚ × ℚ × ℚ := (122 / 255, 122 / 255, 122 / 255)
def COL_SNOW : ℚ × ℚ × ℚ := (232 / 255, 232 / 255, 240 / 255)

/-- The grass band's interpolation formula (`h < BIOME_GRASS_MAX` branch). -/
def bandGrassColor (h : ℚ) : ℚ × ℚ × ℚ :=
  lerpColors COL_DEEP_GRASS COL_LIGHT_GRASS (h / BIOME_GRASS_MAX)

/-- The dirt band's interpolation formula (`h < BIOME_DIRT_MAX` branch). -/
def bandDirtColor (h : ℚ) : ℚ × ℚ × ℚ :=
  lerpColors COL_LIGHT_GRASS COL_DIRT
    ((h - BIOME_GRASS_MAX) / (BIOME_DIRT_MAX - BIOME_GRASS_MAX))

/-- The rock band's interpolation formula (`h < BIOME_ROCK_MAX` branch). -/
def bandRockColor (h : ℚ) : ℚ × ℚ × ℚ :=
  lerpColors COL_DIRT COL_ROCK
    ((h - BIOME_DIRT_MAX) / (BIOME_ROCK_MAX - BIOME_DIRT_MAX))

/-- The snow band's interpolation formula (the final branch). -/
def bandSnowColor (h : ℚ) : ℚ × ℚ × ℚ :=
  lerpColors COL_ROCK COL_SNOW (min 1 ((h - BIOME_ROCK_MAX) / (1 - BIOME_ROCK_MAX)))

/-- `BiomeSystem.getColor(height, slope)`: normalise height, pick the
elevation band, then on steep slopes blend toward a darkened rock colour. -/
def getColor (height slope : ℚ) : ℚ × ℚ × ℚ :=
  let h := max 0 height / 78
  let baseColor :=
    if h < BIOME_GRASS_MAX then bandGrassColor h
    else if h < BIOME_DIRT_MAX then bandDirtColor h
    else if h < BIOME_ROCK_MAX then bandRockColor h
    else bandSnowColor h
  if slope > BIOME_SLOPE_ROCK_THRESHOLD then
    let rockBlend := min 1 ((slope - BIOME_SLOPE_ROCK_THRESHOLD) /
      (1 - BIOME_SLOPE_ROCK_THRESHOLD))
    let darkRock := (COL_ROCK.1 * 0.75, COL_ROCK.2.1 * 0.75, COL_ROCK.2.2 * 0.75)
    lerpColors baseColor darkRock rockBlend
  else baseColor

/-- **C8.** Biome band continuity at zero slope: at each elevation
threshold, the band-below formula evaluated at its upper endpoint equals
the band-above formula evaluated at its lower endpoint, so `getColor · 0`
has no jump as the normalised height crosses `BIOME_GRASS_MAX`,
`BIOME_DIRT_MAX` or `BIOME_ROCK_MAX`. -/
theorem biome_band_continuity :
    bandGrassColor BIOME_GRASS_MAX = bandDirtColor BIOME_GRASS_MAX ∧
    bandDirtColor BIOME_DIRT_MAX = bandRockColor BIOME_DIRT_MAX ∧
    bandRockColor BIOME_ROCK_MAX = bandSnowColor BIOME_ROCK_MAX := by
  refine ⟨?_, ?_, ?_⟩ <;>
    · simp only [bandGrassColor, bandDirtColor, bandRockColor, bandSnowColor,
        lerpColors, qlerp, COL_DEEP_GRASS, COL_LIGHT_GRASS, COL_DIRT, COL_ROCK,
        COL_SNOW, BIOME_GRASS_MAX, BIOME_DIRT_MAX, BIOME_ROCK_MAX, Prod.ext_iff]
      norm_num
